import Mathlib

/-!
Verification of the zetacuentas reconciliation pipeline.

Shallow embedding of the four Python modules:
  `filtrar_movimientos_registrados.py`, `generar_excels.py`,
  `procesar_estados_itau.py`, `procesar_movimiento_brou.py`.

Python strings are modelled as Lean `String`/`List Char`; Python floats as `ℚ`
(decimal values are exact in the repertoire the pipeline manipulates); pandas
cells as the inductive `Cell` below.  Library calls (`unicodedata`,
`str.upper`, `pandas.to_datetime`, …) are modelled over the character
repertoire and textual formats the pipeline actually produces, as documented
on each definition.
-/

/-- Python `str.split()` whitespace class (ASCII part, the repertoire the
pipeline's texts use): space, tab, newline, carriage return, vertical tab,
form feed. -/
def pyIsSpace (c : Char) : Bool :=
  c == ' ' || c == '\t' || c == '\n' || c == '\r' || c == '\x0b' || c == '\x0c'

/-- Python `str.strip()` on a character list: drop whitespace at both ends. -/
def pyStripL (l : List Char) : List Char :=
  ((l.dropWhile pyIsSpace).reverse.dropWhile pyIsSpace).reverse

/-- Python `str.strip()`. -/
def pyStrip (s : String) : String := String.mk (pyStripL s.toList)

/-- Combining-mark test, modelling `unicodedata.combining(ch) != 0` over the
block the decompositions below produce (U+0300–U+036F, Combining Diacritical
Marks). -/
def combiningMark (c : Char) : Bool :=
  0x300 ≤ c.toNat && c.toNat ≤ 0x36F

/-- NFKD decompositions (`unicodedata.normalize("NFKD", ·)`) for the accented
Latin repertoire of the statements (Spanish); characters outside the table
decompose to themselves. -/
def nfkdTable : List (Char × List Char) :=
  [ ('á', ['a', '́']), ('é', ['e', '́']), ('í', ['i', '́'])
  , ('ó', ['o', '́']), ('ú', ['u', '́']), ('ü', ['u', '̈'])
  , ('ñ', ['n', '̃'])
  , ('Á', ['A', '́']), ('É', ['E', '́']), ('Í', ['I', '́'])
  , ('Ó', ['O', '́']), ('Ú', ['U', '́']), ('Ü', ['U', '̈'])
  , ('Ñ', ['N', '̃']) ]

/-- Per-character NFKD decomposition. -/
def nfkdChar (c : Char) : List Char :=
  match nfkdTable.find? (fun p => p.1 == c) with
  | some p => p.2
  | none => [c]

/-- Uppercase mappings of `str.upper()` over the pipeline's repertoire:
ASCII letters plus the accented Spanish letters. -/
def upperTable : List (Char × Char) :=
  [ ('a', 'A'), ('b', 'B'), ('c', 'C'), ('d', 'D'), ('e', 'E'), ('f', 'F')
  , ('g', 'G'), ('h', 'H'), ('i', 'I'), ('j', 'J'), ('k', 'K'), ('l', 'L')
  , ('m', 'M'), ('n', 'N'), ('o', 'O'), ('p', 'P'), ('q', 'Q'), ('r', 'R')
  , ('s', 'S'), ('t', 'T'), ('u', 'U'), ('v', 'V'), ('w', 'W'), ('x', 'X')
  , ('y', 'Y'), ('z', 'Z')
  , ('á', 'Á'), ('é', 'É'), ('í', 'Í'), ('ó', 'Ó'), ('ú', 'Ú'), ('ü', 'Ü')
  , ('ñ', 'Ñ') ]

/-- Lowercase mappings of `str.lower()` over the same repertoire. -/
def lowerTable : List (Char × Char) :=
  upperTable.map (fun p => (p.2, p.1))

/-- Python `str.upper()`, per character. -/
def pyUpperChar (c : Char) : Char :=
  match upperTable.find? (fun p => p.1 == c) with
  | some p => p.2
  | none => c

/-- Python `str.lower()`, per character. -/
def pyLowerChar (c : Char) : Char :=
  match lowerTable.find? (fun p => p.1 == c) with
  | some p => p.2
  | none => c

/-- Python `str.upper()`. -/
def pyUpper (s : String) : String := String.mk (s.toList.map pyUpperChar)

/-- Python `str.lower()`. -/
def pyLower (s : String) : String := String.mk (s.toList.map pyLowerChar)

/-- Substring test on character lists: Python's `needle in hay`. -/
def isSubstr (n : List Char) : List Char → Bool
  | [] => n.isEmpty
  | c :: cs => n.isPrefixOf (c :: cs) || isSubstr n cs

/-- Python's `needle in hay` on strings. -/
def pyIn (needle hay : String) : Bool := isSubstr needle.toList hay.toList

example : pyIn "fecha" (pyLower "  Fecha de valor") = true := by decide
example : pyStrip "  ab c  " = "ab c" := by decide

/-- Model of a pandas cell value: missing (`NaN`/`None`/`NaT`), text, a float
(exact rational model), or an already-structured calendar value
(`Timestamp`/`datetime`, kept as year/month/day). -/
inductive Cell where
  | na : Cell
  | str (s : String) : Cell
  | num (q : ℚ) : Cell
  | date (y m d : Nat) : Cell
deriving DecidableEq, Repr

/-- Left-pad a numeral with zeros to width `k`. -/
def padZeros (k : Nat) (n : Nat) : String :=
  let s := toString n
  String.mk (List.replicate (k - s.length) '0') ++ s

/-- ISO `YYYY-MM-DD` rendering (`date.isoformat()`). -/
def isoStr (y m d : Nat) : String :=
  padZeros 4 y ++ "-" ++ padZeros 2 m ++ "-" ++ padZeros 2 d

/-- Best-effort decimal rendering of a float, modelling Python `str(float)` on
the decimal values the pipeline carries; no claim depends on the text form of
a numeric cell. -/
def qToPyStr (q : ℚ) : String :=
  if q.den = 1 then toString q.num ++ ".0"
  else toString q.num ++ "/" ++ toString q.den

/-- Python `str(value)` on a cell.  `str(float('nan')) = "nan"`; a structured
date renders with its ISO prefix (sufficient for the pipeline, which never
parses the time-of-day part). -/
def cellPyStr : Cell → String
  | .na => "nan"
  | .str s => s
  | .num q => qToPyStr q
  | .date y m d => isoStr y m d

/-- Numeral value of a digit list (most significant first). -/
def digitsVal (l : List Char) : Nat :=
  l.foldl (fun a c => a * 10 + (c.toNat - 48)) 0

/-- All characters are ASCII digits and there is at least one. -/
def allDigits (l : List Char) : Bool :=
  !l.isEmpty && l.all Char.isDigit

/-- Split a character list at every occurrence of `sep` (Python
`s.split(sep)`). -/
def splitOnChar (sep : Char) : List Char → List (List Char)
  | [] => [[]]
  | c :: cs =>
    match splitOnChar sep cs with
    | [] => [[]]
    | w :: ws => if c == sep then [] :: w :: ws else (c :: w) :: ws

/-- Mantissa of a decimal literal: digits with at most one point, at least one
digit overall (`"12"`, `"12."`, `".5"`, `"12.5"`).  Returns the digit string's
value together with the number of fractional digits, so `"12.5"` gives
`(125, 1)`, meaning `125 / 10 ^ 1`. -/
def parseMantissa (l : List Char) : Option (Nat × Nat) :=
  match splitOnChar '.' l with
  | [ip] => if allDigits ip then some (digitsVal ip, 0) else none
  | [ip, fp] =>
    if (ip.all Char.isDigit && fp.all Char.isDigit) && !(ip.isEmpty && fp.isEmpty)
    then some (digitsVal ip * 10 ^ fp.length + digitsVal fp, fp.length)
    else none
  | _ => none

/-- Digit stage of Python `float(s)` restricted to finite decimal literals:
optional sign, decimal mantissa, optional exponent.  The result `(m, e)`
denotes the value `m * 10 ^ e`.  (`inf`/`nan` literals and digit-group
underscores are outside the pipeline's repertoire and parse to `none`, i.e.
they are treated as a `ValueError`.) -/
def pyFloatRepr (s : String) : Option (Int × Int) :=
  let l := pyStripL s.toList
  let (sign, l) : Int × List Char :=
    match l with
    | '-' :: rest => (-1, rest)
    | '+' :: rest => (1, rest)
    | _ => (1, l)
  let (mant, expPart) :=
    match l.span (fun c => !(c == 'e' || c == 'E')) with
    | (m, []) => (m, none)
    | (m, _ :: e) => (m, some e)
  match parseMantissa mant with
  | none => none
  | some p =>
    match expPart with
    | none => some (sign * p.1, -(p.2 : Int))
    | some e =>
      let (esign, e) : Int × List Char :=
        match e with
        | '-' :: rest => (-1, rest)
        | '+' :: rest => (1, rest)
        | _ => (1, e)
      if allDigits e then some (sign * p.1, esign * digitsVal e - (p.2 : Int))
      else none

/-- Model of Python `float(s)`: the parsed decimal value. -/
def pyFloat (s : String) : Option ℚ :=
  (pyFloatRepr s).map (fun p => (p.1 : ℚ) * (10 : ℚ) ^ p.2)

example : pyFloatRepr "1234.56" = some (123456, -2) := by decide
example : pyFloatRepr "-15.68" = some (-1568, -2) := by decide
example : pyFloatRepr ".5e1" = some (5, 0) := by decide
example : pyFloatRepr "1 000.5" = none := by decide
example : pyFloatRepr "" = none := by decide

/-- Round half-to-even to an integer (Python/numpy rounding). -/
def roundHalfEven (q : ℚ) : ℤ :=
  let f := ⌊q⌋
  if q - f < 1 / 2 then f
  else if q - f > 1 / 2 then f + 1
  else if f % 2 = 0 then f else f + 1

/-- Round to two decimal places (`round(x, 2)` / `Series.round(2)`). -/
def round2 (q : ℚ) : ℚ := (roundHalfEven (q * 100) : ℚ) / 100

example : round2 (1 / 200) = 0 := by norm_num [round2, roundHalfEven]
example : round2 (45030 / 100) = 45030 / 100 := by norm_num [round2, roundHalfEven]
example : round2 (3 / 200) = 2 / 100 := by norm_num [round2, roundHalfEven]

/-- Character stage of `parse_importe` (`generar_excels.py` lines 13–35,
`procesar_movimiento_brou.py` lines 19–44, `procesar_estados_itau.py`
lines 28–41; the three copies are identical up to the breadth of the
`except` clause, which the `Option` result models): `str(value).strip()`,
empty check, leading `-` sets the sign, all `-` stripped, `.` removed,
`,` turned into `.`, then `float(·)`.  `none` models every path that
returns `0.0`. -/
def parse_importe_repr (v : Cell) : Option (Bool × Int × Int) :=
  match v with
  | .na => none
  | _ =>
    let s := pyStripL (cellPyStr v).toList
    if s.isEmpty then none
    else
      let neg := s.head? == some '-'
      let s1 := s.filter (fun c => !(c == '-'))
      let s2 := (s1.filter (fun c => !(c == '.'))).map (fun c => if c == ',' then '.' else c)
      match pyFloatRepr (String.mk s2) with
      | some p => some (neg, p.1, p.2)
      | none => none

/-- `parse_importe(value)`: `sign * float(translated)` with `0.0` for
null/empty/unparseable input. -/
def parse_importe (v : Cell) : ℚ :=
  match parse_importe_repr v with
  | some (neg, m, e) => (if neg then -1 else 1) * (m : ℚ) * (10 : ℚ) ^ e
  | none => 0

example : parse_importe (.str "1.234,56") = 123456 / 100 := by
  have h : parse_importe_repr (.str "1.234,56") = some (false, 123456, -2) := by decide
  rw [parse_importe, h]
  norm_num

example : parse_importe (.str "-15,68") = -(1568 / 100) := by
  have h : parse_importe_repr (.str "-15,68") = some (true, 1568, -2) := by decide
  rw [parse_importe, h]
  norm_num

example : parse_importe (.str "") = 0 := by
  have h : parse_importe_repr (.str "") = none := by decide
  rw [parse_importe, h]

/-- Python `s.split()` helper: accumulate the current word (reversed) while
scanning; whitespace runs close the word, empty words are dropped. -/
def splitAcc (cur : List Char) : List Char → List (List Char)
  | [] => if cur.isEmpty then [] else [cur.reverse]
  | c :: cs =>
    if pyIsSpace c then
      if cur.isEmpty then splitAcc [] cs
      else cur.reverse :: splitAcc [] cs
    else splitAcc (c :: cur) cs

/-- Python `s.split()` (no separator argument): split on whitespace runs,
dropping empty chunks. -/
def pySplitWS (l : List Char) : List (List Char) := splitAcc [] l

/-- Python `" ".join(words)` on character lists. -/
def joinSpace : List (List Char) → List Char
  | [] => []
  | [w] => w
  | w :: ws => w ++ ' ' :: joinSpace ws

/-- Core of `normalize_description` (`filtrar_movimientos_registrados.py`
lines 51–60) on a character list: strip, return empty for blank, NFKD
decompose, drop combining marks, uppercase, collapse whitespace runs via
`" ".join(text.upper().split())`. -/
def normDescL (l : List Char) : List Char :=
  if (pyStripL l).isEmpty then []
  else
    joinSpace (pySplitWS
      (((((pyStripL l).map nfkdChar).flatten).filter (fun c => !combiningMark c)).map pyUpperChar))

/-- `normalize_description(value)`: `""` for missing values, otherwise the
normalized text of `str(value)`. -/
def normalize_description (v : Cell) : String :=
  match v with
  | .na => ""
  | _ => String.mk (normDescL (cellPyStr v).toList)

example : normalize_description (.str "  Compra   Farmacia ") = "COMPRA FARMACIA" := by decide
example : normalize_description (.str "Crédito Itaú") = "CREDITO ITAU" := by decide
example : normalize_description .na = "" := by decide

/-- A character is stable for the description pipeline when NFKD leaves it
alone, it is not a combining mark, and uppercasing fixes it. -/
def stableChar (c : Char) : Bool :=
  (nfkdChar c == [c]) && !combiningMark c && (pyUpperChar c == c)

theorem stable_nfkd {c : Char} (h : stableChar c = true) : nfkdChar c = [c] := by
  have := (Bool.and_eq_true .. ▸ h).1
  have := (Bool.and_eq_true .. ▸ this).1
  exact beq_iff_eq.mp this

theorem stable_comb {c : Char} (h : stableChar c = true) : combiningMark c = false := by
  have := (Bool.and_eq_true .. ▸ h).1
  have := (Bool.and_eq_true .. ▸ this).2
  simpa using this

theorem stable_upper {c : Char} (h : stableChar c = true) : pyUpperChar c = c := by
  have := (Bool.and_eq_true .. ▸ h).2
  exact beq_iff_eq.mp this

theorem nfkdTableOK :
    nfkdTable.all (fun p => p.2.all (fun x => combiningMark x || stableChar (pyUpperChar x))) = true := by
  decide

theorem upperTableOK :
    upperTable.all (fun q =>
      (nfkdTable.find? (fun p => p.1 == q.1)).isSome || stableChar q.2) = true := by
  decide

/-- Every non-combining character of an NFKD decomposition uppercases to a
stable character. -/
theorem stable_of_nfkd {c x : Char} (hx : x ∈ nfkdChar c)
    (hcomb : combiningMark x = false) : stableChar (pyUpperChar x) = true := by
  unfold nfkdChar at hx
  cases hfind : nfkdTable.find? (fun p => p.1 == c) with
  | some p =>
    rw [hfind] at hx
    have hp : p ∈ nfkdTable := List.mem_of_find?_eq_some hfind
    have hall := (List.all_eq_true.mp nfkdTableOK) p hp
    have hxall := (List.all_eq_true.mp hall) x hx
    rcases Bool.or_eq_true _ _ ▸ hxall with h | h
    · rw [hcomb] at h; cases h
    · exact h
  | none =>
    rw [hfind] at hx
    have hxc : x = c := by simpa using hx
    subst hxc
    cases hup : upperTable.find? (fun p => p.1 == x) with
    | some q =>
      have hq : q ∈ upperTable := List.mem_of_find?_eq_some hup
      have hqx' := List.find?_some hup
      have hqx : q.1 = x := beq_iff_eq.mp (by simpa using hqx')
      have hupeq : pyUpperChar x = q.2 := by unfold pyUpperChar; rw [hup]
      rw [hupeq]
      have hall := (List.all_eq_true.mp upperTableOK) q hq
      rcases Bool.or_eq_true _ _ ▸ hall with h | h
      · rw [hqx, hfind] at h; cases h
      · exact h
    | none =>
      have hupeq : pyUpperChar x = x := by unfold pyUpperChar; rw [hup]
      have h1 : nfkdChar x = [x] := by unfold nfkdChar; rw [hfind]
      rw [hupeq]
      unfold stableChar
      rw [h1, hcomb, hupeq, beq_self_eq_true, beq_self_eq_true]
      rfl

/-- Words produced by `splitAcc` are nonempty, whitespace-free, and drawn
from the accumulator or the remaining input. -/
theorem splitAcc_mem : ∀ (l cur : List Char),
    (∀ x ∈ cur, pyIsSpace x = false) →
    ∀ w ∈ splitAcc cur l, w ≠ [] ∧ ∀ x ∈ w, (x ∈ cur ∨ x ∈ l) ∧ pyIsSpace x = false := by
  intro l
  induction l with
  | nil =>
    intro cur hcur w hw
    unfold splitAcc at hw
    cases hc : cur.isEmpty
    · rw [hc] at hw
      simp only [Bool.false_eq_true, if_false, List.mem_singleton] at hw
      subst hw
      have hcne : cur ≠ [] := fun h => by simp [h] at hc
      refine ⟨fun h => hcne (by simpa using congrArg List.reverse h), ?_⟩
      intro x hx
      rw [List.mem_reverse] at hx
      exact ⟨Or.inl hx, hcur x hx⟩
    · rw [hc] at hw; simp at hw
  | cons c cs ih =>
    intro cur hcur w hw
    unfold splitAcc at hw
    cases hsp : pyIsSpace c
    · rw [hsp] at hw
      simp only [Bool.false_eq_true, if_false] at hw
      have hnext : ∀ x ∈ (c :: cur), pyIsSpace x = false := by
        intro x hx
        rcases List.mem_cons.mp hx with rfl | hx
        · exact hsp
        · exact hcur x hx
      obtain ⟨hne, hchars⟩ := ih (c :: cur) hnext w hw
      refine ⟨hne, ?_⟩
      intro x hx
      obtain ⟨hmem, hxsp⟩ := hchars x hx
      refine ⟨?_, hxsp⟩
      rcases hmem with hm | hm
      · rcases List.mem_cons.mp hm with rfl | hm
        · exact Or.inr (List.mem_cons_self ..)
        · exact Or.inl hm
      · exact Or.inr (List.mem_cons_of_mem _ hm)
    · rw [hsp] at hw
      simp only [if_true] at hw
      cases hc : cur.isEmpty
      · rw [hc] at hw
        simp only [Bool.false_eq_true, if_false, List.mem_cons] at hw
        rcases hw with rfl | hw
        · have hcne : cur ≠ [] := fun h => by simp [h] at hc
          refine ⟨fun h => hcne (by simpa using congrArg List.reverse h), ?_⟩
          intro x hx
          rw [List.mem_reverse] at hx
          exact ⟨Or.inl hx, hcur x hx⟩
        · obtain ⟨hne, hchars⟩ := ih [] (by intro x hx; cases hx) w hw
          refine ⟨hne, ?_⟩
          intro x hx
          obtain ⟨hmem, hxsp⟩ := hchars x hx
          refine ⟨?_, hxsp⟩
          rcases hmem with hm | hm
          · cases hm
          · exact Or.inr (List.mem_cons_of_mem _ hm)
      · rw [hc] at hw
        simp only [if_true] at hw
        obtain ⟨hne, hchars⟩ := ih [] (by intro x hx; cases hx) w hw
        refine ⟨hne, ?_⟩
        intro x hx
        obtain ⟨hmem, hxsp⟩ := hchars x hx
        refine ⟨?_, hxsp⟩
        rcases hmem with hm | hm
        · cases hm
        · exact Or.inr (List.mem_cons_of_mem _ hm)

/-- Scanning a whitespace-free word prepends it (reversed) to the
accumulator. -/
theorem splitAcc_append_word : ∀ (w cur l : List Char),
    (∀ x ∈ w, pyIsSpace x = false) →
    splitAcc cur (w ++ l) = splitAcc (w.reverse ++ cur) l := by
  intro w
  induction w with
  | nil => intro cur l _; rfl
  | cons c w' ih =>
    intro cur l hw
    have hc : pyIsSpace c = false := hw c (List.mem_cons_self ..)
    have hstep : splitAcc cur ((c :: w') ++ l) = splitAcc (c :: cur) (w' ++ l) := by
      show splitAcc cur (c :: (w' ++ l)) = _
      conv_lhs => unfold splitAcc
      rw [hc]
      simp
    rw [hstep, ih (c :: cur) l (fun x hx => hw x (List.mem_cons_of_mem _ hx))]
    congr 1
    simp

/-- Splitting the space-joined rendering of nonempty whitespace-free words
recovers the words. -/
theorem split_join : ∀ ws : List (List Char),
    (∀ w ∈ ws, w ≠ [] ∧ ∀ x ∈ w, pyIsSpace x = false) →
    pySplitWS (joinSpace ws) = ws := by
  intro ws
  induction ws with
  | nil => intro _; rfl
  | cons w ws' ih =>
    intro hgood
    obtain ⟨hwne, hwsp⟩ := hgood w (List.mem_cons_self ..)
    cases ws' with
    | nil =>
      show pySplitWS w = [w]
      unfold pySplitWS
      rw [show w = w ++ ([] : List Char) by simp, splitAcc_append_word w [] [] hwsp]
      unfold splitAcc
      have : (w.reverse ++ []).isEmpty = false := by
        cases hrev : w.reverse.isEmpty
        · simp [hrev]
        · exact absurd (by simpa using List.isEmpty_iff.mp hrev) hwne
      rw [this]
      simp
    | cons w'' ws'' =>
      show pySplitWS (w ++ ' ' :: joinSpace (w'' :: ws'')) = _
      unfold pySplitWS
      rw [splitAcc_append_word w [] _ hwsp]
      unfold splitAcc
      rw [show pyIsSpace ' ' = true from rfl]
      simp only [if_true]
      have hne : (w.reverse ++ []).isEmpty = false := by
        cases hrev : w.reverse.isEmpty
        · simp [hrev]
        · exact absurd (by simpa using List.isEmpty_iff.mp hrev) hwne
      rw [hne]
      simp only [Bool.false_eq_true, if_false]
      have := ih (fun v hv => hgood v (List.mem_cons_of_mem _ hv))
      unfold pySplitWS at this
      rw [this]
      simp

/-- The join of nonempty whitespace-free words starts with a non-space
character. -/
theorem join_head : ∀ ws : List (List Char), ws ≠ [] →
    (∀ w ∈ ws, w ≠ [] ∧ ∀ x ∈ w, pyIsSpace x = false) →
    ∃ c t, joinSpace ws = c :: t ∧ pyIsSpace c = false := by
  intro ws
  cases ws with
  | nil => intro h; cases h rfl
  | cons w ws' =>
    intro _ hgood
    obtain ⟨hwne, hwsp⟩ := hgood w (List.mem_cons_self ..)
    cases hw : w with
    | nil => exact absurd hw hwne
    | cons c t =>
      refine ⟨c, ?_, ?_, hwsp c (hw ▸ List.mem_cons_self ..)⟩
      · cases ws' with
        | nil => exact t
        | cons w'' ws'' => exact t ++ ' ' :: joinSpace (w'' :: ws'')
      · cases ws' with
        | nil => simp [joinSpace, hw]
        | cons w'' ws'' => simp [joinSpace, hw]

/-- The join of nonempty whitespace-free words ends with a non-space
character. -/
theorem join_last : ∀ ws : List (List Char), ws ≠ [] →
    (∀ w ∈ ws, w ≠ [] ∧ ∀ x ∈ w, pyIsSpace x = false) →
    ∃ c t, (joinSpace ws).reverse = c :: t ∧ pyIsSpace c = false := by
  intro ws
  induction ws with
  | nil => intro h; cases h rfl
  | cons w ws' ih =>
    intro _ hgood
    obtain ⟨hwne, hwsp⟩ := hgood w (List.mem_cons_self ..)
    cases ws' with
    | nil =>
      show ∃ c t, w.reverse = c :: t ∧ pyIsSpace c = false
      cases hrev : w.reverse with
      | nil => exact absurd (by simpa using congrArg List.reverse hrev) hwne
      | cons c t =>
        refine ⟨c, t, rfl, ?_⟩
        have : c ∈ w := by
          rw [← List.mem_reverse, hrev]
          exact List.mem_cons_self ..
        exact hwsp c this
    | cons w'' ws'' =>
      obtain ⟨c, t, hct, hc⟩ := ih (by simp) (fun v hv => hgood v (List.mem_cons_of_mem _ hv))
      refine ⟨c, t ++ ' ' :: w.reverse, ?_, hc⟩
      show (w ++ ' ' :: joinSpace (w'' :: ws'')).reverse = _
      rw [List.reverse_append, List.reverse_cons]
      rw [List.append_assoc, hct]
      simp

/-- Stripping the join of nonempty whitespace-free words is the identity. -/
theorem strip_join (ws : List (List Char)) (hne : ws ≠ [])
    (hgood : ∀ w ∈ ws, w ≠ [] ∧ ∀ x ∈ w, pyIsSpace x = false) :
    pyStripL (joinSpace ws) = joinSpace ws := by
  obtain ⟨c, t, hh, hc⟩ := join_head ws hne hgood
  obtain ⟨c', t', hl, hc'⟩ := join_last ws hne hgood
  unfold pyStripL
  rw [hh, List.dropWhile_cons, hc]
  simp only [Bool.false_eq_true, if_false]
  rw [← hh, hl, List.dropWhile_cons, hc']
  simp only [Bool.false_eq_true, if_false]
  rw [← hl]
  simp

/-- Characters of a join are spaces or characters of the words. -/
theorem join_mem : ∀ (ws : List (List Char)) (x : Char), x ∈ joinSpace ws →
    x = ' ' ∨ ∃ w ∈ ws, x ∈ w := by
  intro ws
  induction ws with
  | nil => intro x hx; cases hx
  | cons w ws' ih =>
    intro x hx
    cases ws' with
    | nil =>
      exact Or.inr ⟨w, List.mem_cons_self .., hx⟩
    | cons w'' ws'' =>
      rw [show joinSpace (w :: w'' :: ws'') = w ++ ' ' :: joinSpace (w'' :: ws'') from rfl] at hx
      rcases List.mem_append.mp hx with hx | hx
      · exact Or.inr ⟨w, List.mem_cons_self .., hx⟩
      · rcases List.mem_cons.mp hx with rfl | hx
        · exact Or.inl rfl
        · rcases ih x hx with h | ⟨v, hv, hxv⟩
          · exact Or.inl h
          · exact Or.inr ⟨v, List.mem_cons_of_mem _ hv, hxv⟩

theorem flatten_fixpoint : ∀ l : List Char, (∀ x ∈ l, nfkdChar x = [x]) →
    (l.map nfkdChar).flatten = l := by
  intro l
  induction l with
  | nil => intro _; rfl
  | cons c cs ih =>
    intro h
    simp only [List.map_cons, List.flatten_cons]
    rw [h c (List.mem_cons_self ..), ih (fun x hx => h x (List.mem_cons_of_mem _ hx))]
    rfl

theorem map_fixpoint {α : Type} (f : α → α) : ∀ l : List α, (∀ x ∈ l, f x = x) →
    l.map f = l := by
  intro l
  induction l with
  | nil => intro _; rfl
  | cons c cs ih =>
    intro h
    simp only [List.map_cons]
    rw [h c (List.mem_cons_self ..), ih (fun x hx => h x (List.mem_cons_of_mem _ hx))]

theorem normDescL_nil : normDescL [] = [] := rfl

/-- The output of `normDescL` is empty or a join of nonempty whitespace-free
words of stable characters. -/
theorem normDescL_shape (l : List Char) :
    normDescL l = [] ∨ ∃ ws, normDescL l = joinSpace ws ∧ ws ≠ []
      ∧ (∀ w ∈ ws, w ≠ [] ∧ ∀ x ∈ w, pyIsSpace x = false)
      ∧ (∀ w ∈ ws, ∀ x ∈ w, stableChar x = true) := by
  unfold normDescL
  cases hstrip : (pyStripL l).isEmpty with
  | true => left; simp
  | false =>
    simp only [Bool.false_eq_true, if_false]
    set u := ((((pyStripL l).map nfkdChar).flatten).filter (fun c => !combiningMark c)).map pyUpperChar with hu
    have hu_stable : ∀ y ∈ u, stableChar y = true := by
      intro y hy
      rw [hu] at hy
      obtain ⟨x, hx, rfl⟩ := List.mem_map.mp hy
      obtain ⟨hxm, hxc⟩ := List.mem_filter.mp hx
      obtain ⟨dl, hdl, hxdl⟩ := List.mem_flatten.mp hxm
      obtain ⟨c, _, rfl⟩ := List.mem_map.mp hdl
      have hcomb : combiningMark x = false := by simpa using hxc
      exact stable_of_nfkd hxdl hcomb
    cases hws : pySplitWS u with
    | nil => left; rfl
    | cons w0 ws0 =>
      right
      refine ⟨w0 :: ws0, rfl, by simp, ?_, ?_⟩
      · intro w hw
        rw [← hws] at hw
        obtain ⟨hne, hchars⟩ := splitAcc_mem u [] (by intro x hx; cases hx) w hw
        exact ⟨hne, fun x hx => (hchars x hx).2⟩
      · intro w hw x hx
        rw [← hws] at hw
        obtain ⟨_, hchars⟩ := splitAcc_mem u [] (by intro x hx; cases hx) w hw
        rcases (hchars x hx).1 with h | h
        · cases h
        · exact hu_stable x h

/-- `normDescL` fixes any join of nonempty whitespace-free words of stable
characters. -/
theorem normDescL_fix (ws : List (List Char)) (hne : ws ≠ [])
    (hgood : ∀ w ∈ ws, w ≠ [] ∧ ∀ x ∈ w, pyIsSpace x = false)
    (hstable : ∀ w ∈ ws, ∀ x ∈ w, stableChar x = true) :
    normDescL (joinSpace ws) = joinSpace ws := by
  have hout_stable : ∀ x ∈ joinSpace ws, stableChar x = true := by
    intro x hx
    rcases join_mem ws x hx with rfl | ⟨w, hw, hxw⟩
    · decide
    · exact hstable w hw x hxw
  have hstrip_out : pyStripL (joinSpace ws) = joinSpace ws := strip_join ws hne hgood
  have hout_ne : (joinSpace ws).isEmpty = false := by
    obtain ⟨c, t, hh, _⟩ := join_head ws hne hgood
    rw [hh]; rfl
  unfold normDescL
  rw [hstrip_out, hout_ne]
  simp only [Bool.false_eq_true, if_false]
  rw [flatten_fixpoint _ (fun x hx => stable_nfkd (hout_stable x hx))]
  rw [List.filter_eq_self.mpr (by
    intro x hx
    rw [stable_comb (hout_stable x hx)]
    rfl)]
  rw [map_fixpoint pyUpperChar _ (fun x hx => stable_upper (hout_stable x hx))]
  rw [split_join ws hgood]

/-- `normDescL` fixes its own output. -/
theorem normDescL_idem (l : List Char) : normDescL (normDescL l) = normDescL l := by
  rcases normDescL_shape l with h | ⟨ws, heq, hne, hgood, hstable⟩
  · rw [h]; exact normDescL_nil
  · rw [heq]; exact normDescL_fix ws hne hgood hstable

/-- C6: `canonicalDescription` (`normalize_description`) — trim, empty for
null/blank, strip diacritics by Unicode decomposition, uppercase, collapse
whitespace runs — is idempotent: applying it to its own output returns the
output unchanged. -/
theorem claim_C6_normalize_description_idempotent (v : Cell) :
    normalize_description (.str (normalize_description v)) = normalize_description v := by
  have key : ∀ l : List Char,
      normalize_description (.str (String.mk (normDescL l))) = String.mk (normDescL l) := by
    intro l
    have h1 : normalize_description (.str (String.mk (normDescL l)))
        = String.mk (normDescL (normDescL l)) := rfl
    rw [h1, normDescL_idem]
  cases v with
  | na =>
    have h0 : normalize_description .na = "" := rfl
    rw [h0]
    rfl
  | str s => exact key s.toList
  | num q => exact key (qToPyStr q).toList
  | date y m d => exact key (isoStr y m d).toList

/-- C3 counterexample: `parse_importe` applies no rounding — on `"0,005"` it
returns `0.005` exactly, which `round2` would change, so the result is not
rounded to 2 decimal places as the claim states. -/
theorem claim_C3_counterexample :
    parse_importe (.str "0,005") = 1 / 200
    ∧ round2 (parse_importe (.str "0,005")) ≠ parse_importe (.str "0,005") := by
  have h : parse_importe_repr (.str "0,005") = some (false, 5, -3) := by decide
  have hval : parse_importe (.str "0,005") = 1 / 200 := by
    rw [parse_importe, h]
    norm_num
  refine ⟨hval, ?_⟩
  rw [hval]
  norm_num [round2, roundHalfEven]

/-- C3 (amended): `parse_importe` translates text with thousands-separator
`.` and decimal-separator `,`, an optional leading `-` sets the sign and is
stripped before the separator translation, the result is the exactly parsed
decimal value (no rounding to 2 places is applied), and null, empty or
unparseable input yields `0.00` without raising; in particular
`parse_importe("1.234,56") = 1234.56`, `parse_importe("-15,68") = -15.68`
and `parse_importe("") = 0.00`. -/
theorem claim_C3_amended_parse_importe :
    parse_importe (.str "1.234,56") = 123456 / 100
    ∧ parse_importe (.str "-15,68") = -(1568 / 100)
    ∧ parse_importe (.str "") = 0
    ∧ parse_importe .na = 0
    ∧ parse_importe (.str "abc") = 0
    ∧ parse_importe (.str "  -1.300,00") = -1300 := by
  refine ⟨?_, ?_, ?_, ?_, ?_, ?_⟩
  · have h : parse_importe_repr (.str "1.234,56") = some (false, 123456, -2) := by decide
    rw [parse_importe, h]; norm_num
  · have h : parse_importe_repr (.str "-15,68") = some (true, 1568, -2) := by decide
    rw [parse_importe, h]; norm_num
  · have h : parse_importe_repr (.str "") = none := by decide
    rw [parse_importe, h]
  · rfl
  · have h : parse_importe_repr (.str "abc") = none := by decide
    rw [parse_importe, h]
  · have h : parse_importe_repr (.str "  -1.300,00") = some (true, 130000, -2) := by decide
    rw [parse_importe, h]; norm_num

/-- Gregorian leap year. -/
def isLeap (y : Nat) : Bool :=
  y % 4 == 0 && (y % 100 != 0 || y % 400 == 0)

/-- Days in a month. -/
def daysInMonth (y m : Nat) : Nat :=
  if m = 2 then (if isLeap y then 29 else 28)
  else if m = 4 || m = 6 || m = 9 || m = 11 then 30
  else 31

/-- Calendar validity of a (year, month, day) triple. -/
def validYMD (y m d : Nat) : Bool :=
  1 ≤ m && m ≤ 12 && 1 ≤ d && d ≤ daysInMonth y m

/-- Two-digit year pivot shared by `strptime`'s `%y` (and dateutil):
`00–68 → 2000s`, `69–99 → 1900s`. -/
def expandYY (y : Nat) : Nat :=
  if y ≤ 68 then 2000 + y else 1900 + y

/-- Model of `pandas.to_datetime(s, dayfirst=True, errors="coerce")` on text,
over the textual date forms the pipeline produces: `DD/MM/YYYY`, `DD/MM/YY`
and `YYYY-MM-DD` (one- or two-digit day and month accepted).  Any other text
coerces to `NaT` (`none`). -/
def pdParseDate (l : List Char) : Option (Nat × Nat × Nat) :=
  match splitOnChar '/' l with
  | [d, m, y] =>
    if allDigits d && allDigits m && allDigits y
        && (d.length ≤ 2 && m.length ≤ 2)
        && (y.length = 2 || y.length = 4) then
      let yv := if y.length = 2 then expandYY (digitsVal y) else digitsVal y
      if validYMD yv (digitsVal m) (digitsVal d)
      then some (yv, digitsVal m, digitsVal d)
      else none
    else none
  | _ =>
    match splitOnChar '-' l with
    | [y, m, d] =>
      if (allDigits y && allDigits m && allDigits d)
          && (y.length = 4 && m.length ≤ 2 && d.length ≤ 2)
          && validYMD (digitsVal y) (digitsVal m) (digitsVal d)
      then some (digitsVal y, digitsVal m, digitsVal d)
      else none
    | _ => none

/-- `normalize_date(value)` (`filtrar_movimientos_registrados.py` lines
38–48): `None` for missing values, else `pd.to_datetime(value, dayfirst=True,
errors="coerce")` and the date's `isoformat()`; `None` when the parse coerces
to `NaT`.  Structured calendar cells pass through; numeric cells (whose
pandas epoch interpretation the pipeline never exercises on date columns) are
modelled as `NaT`. -/
def normalize_date (v : Cell) : Option String :=
  match v with
  | .na => none
  | .date y m d => some (isoStr y m d)
  | .num _ => none
  | .str s =>
    match pdParseDate (pyStripL s.toList) with
    | some (y, m, d) => some (isoStr y m d)
    | none => none

example : normalize_date (.str "10/03/2024") = some "2024-03-10" := by decide
example : normalize_date (.str "2024-03-10") = some "2024-03-10" := by decide
example : normalize_date (.str "31/02/2024") = none := by decide
example : normalize_date .na = none := by decide

/-- `normalize_amount(value)` (`filtrar_movimientos_registrados.py` lines
63–70): `0.0` for missing values, `round(float(value), 2)` otherwise, `0.0`
when the conversion raises.  `float(·)` accepts a numeric cell as-is and
parses text with `.` as the decimal point. -/
def normalize_amount (v : Cell) : ℚ :=
  match v with
  | .na => 0
  | .num q => round2 q
  | .str s =>
    match pyFloat s with
    | some q => round2 q
    | none => 0
  | .date _ _ _ => 0

/-- A normalized reconciliation key: `(Fecha_norm, Descripcion_norm,
Importe_norm)`. -/
abbrev NKey := Option String × String × ℚ

/-- Python truthiness of the first two key fields, as used by the guard
`if row.Fecha_norm and row.Descripcion_norm` in `build_keyset`:
`None` and the empty string are falsy. -/
def keyTruthy (k : NKey) : Bool :=
  (match k.1 with
   | none => false
   | some s => !s.isEmpty) && !k.2.1.isEmpty

/-- `build_keyset(df)` (`filtrar_movimientos_registrados.py` lines 73–79):
the set of `(Fecha_norm, Descripcion_norm, Importe_norm)` triples of the rows
whose date and description are truthy.  The argument is the list of the
frame's normalized triples (the `itertuples` view of the three `_norm`
columns). -/
def build_keyset (rows : List NKey) : Finset NKey :=
  (rows.filter keyTruthy).toFinset

/-- A movements-frame row, modelled as its ordered association list of
column label to cell (`DataFrame` row). -/
abbrev DRow := List (String × Cell)

/-- Column access `row[label]`, first occurrence; the pipeline's frames have
the required labels (`df[...]` raises `KeyError` otherwise, a path no claim
exercises). -/
def colVal (r : DRow) (c : String) : Cell :=
  match r.find? (fun p => p.1 == c) with
  | some p => p.2
  | none => .na

/-- Column as float with `NaN` filled by zero:
`df.get(label, 0).fillna(0).astype(float)`. -/
def colFloat0 (r : DRow) (c : String) : ℚ :=
  match colVal r c with
  | .na => 0
  | .num q => q
  | .str s => (pyFloat (pyStrip s)).getD 0
  | .date _ _ _ => 0

/-- The normalized triple of a movements row: `Fecha_norm` from `Fecha`,
`Descripcion_norm` from `Descripcion`, `Importe_norm` as
`(Creditos - Debitos).round(2)`. -/
def row_key (r : DRow) : NKey :=
  ( normalize_date (colVal r "Fecha")
  , normalize_description (colVal r "Descripcion")
  , round2 (colFloat0 r "Creditos" - colFloat0 r "Debitos") )

/-- `add_normalized_columns(df)` (`filtrar_movimientos_registrados.py`
lines 110–118): works on a copy of the frame and attaches the three helper
columns `Fecha_norm`, `Descripcion_norm`, `Importe_norm`; modelled as pairing
every original row with its normalized triple. -/
def add_normalized_columns (df : List DRow) : List (DRow × NKey) :=
  df.map (fun r => (r, row_key r))

/-- `filter_dataframe(df, keys)` (`filtrar_movimientos_registrados.py` lines
121–134): empty frames pass through; otherwise the mask keeps the rows whose
normalized triple is not in `keys`, the removed count is the number of masked
rows, and the kept rows are selected from the ORIGINAL frame
(`df.loc[mask].copy()`), not from the normalized copy. -/
def filter_dataframe (df : List DRow) (keys : Finset NKey) : List DRow × Nat :=
  if df.isEmpty then (df, 0)
  else
    let dfn := add_normalized_columns df
    let mask := dfn.map (fun p => decide (p.2 ∉ keys))
    let removed := (mask.filter (fun b => !b)).length
    let filtered := ((df.zip mask).filter (fun p => p.2)).map (fun p => p.1)
    (filtered, removed)

/-- Presence of a column label in a row. -/
def hasCol (r : DRow) (c : String) : Bool :=
  r.any (fun p => p.1 == c)

theorem zip_mask_filter {α : Type} (f : α → Bool) :
    ∀ l : List α, ((l.zip (l.map f)).filter (fun p => p.2)).map (fun p => p.1) = l.filter f := by
  intro l
  induction l with
  | nil => rfl
  | cons a t ih =>
    by_cases h : f a = true
    · simp [List.zip_cons_cons, List.filter_cons, h, ih]
    · simp only [Bool.not_eq_true] at h
      simp [List.zip_cons_cons, List.filter_cons, h, ih]

theorem length_filter_split {α : Type} (p : α → Bool) :
    ∀ l : List α, (l.filter p).length + (l.filter (fun a => !p a)).length = l.length := by
  intro l
  induction l with
  | nil => rfl
  | cons a t ih =>
    cases hk : p a <;>
      · simp [List.filter_cons, hk]
        omega

theorem mask_removed {α : Type} (f : α → Bool) :
    ∀ l : List α, ((l.map f).filter (fun b => !b)).length = (l.filter (fun a => !f a)).length := by
  intro l
  induction l with
  | nil => rfl
  | cons a t ih =>
    by_cases h : f a = true <;>
      simp [List.filter_cons, h, ih]

/-- Closed form of `filter_dataframe`: the kept rows are the original rows
whose normalized triple is outside `keys`, and the removed count is the
number of rows whose triple is inside. -/
theorem filter_dataframe_spec (df : List DRow) (keys : Finset NKey) :
    filter_dataframe df keys =
      ( df.filter (fun r => !decide (row_key r ∈ keys))
      , (df.filter (fun r => decide (row_key r ∈ keys))).length ) := by
  by_cases hdf : df.isEmpty
  · rcases List.isEmpty_iff.mp hdf with rfl
    simp [filter_dataframe]
  · unfold filter_dataframe add_normalized_columns
    rw [if_neg hdf]
    have hmask : (df.map (fun r => (r, row_key r))).map (fun p => decide (p.2 ∉ keys))
        = df.map (fun r => decide (row_key r ∉ keys)) := by
      rw [List.map_map]; rfl
    refine Prod.ext ?_ ?_
    · show ((df.zip _).filter _).map _ = _
      rw [hmask, zip_mask_filter (fun r => decide (row_key r ∉ keys))]
      apply List.filter_congr
      intro r _
      simp [decide_not]
    · show (List.filter _ _).length = _
      rw [hmask, mask_removed (fun r => decide (row_key r ∉ keys))]
      simp

theorem keyTruthy_of_mem_build_keyset {comp : List NKey} {k : NKey}
    (h : k ∈ build_keyset comp) : keyTruthy k = true := by
  unfold build_keyset at h
  rw [List.mem_toFinset] at h
  exact (List.mem_filter.mp h).2

/-- C1: against any keyset produced by `build_keyset`, `filter_dataframe`
removes a record exactly when its normalized triple
`(normalize_date(Fecha), normalize_description(Descripcion),
round2(Creditos - Debitos))` is a member of the keyset — no tolerance, no
partial match — and a record whose date normalizes to `None` or whose
description normalizes to the empty string is always kept. -/
theorem claim_C1_exact_membership_filter (comp : List NKey) (df : List DRow)
    (r : DRow) (h : r ∈ df) :
    (r ∈ (filter_dataframe df (build_keyset comp)).1 ↔
      row_key r ∉ build_keyset comp)
    ∧ ((normalize_date (colVal r "Fecha") = none
        ∨ normalize_description (colVal r "Descripcion") = "") →
        r ∈ (filter_dataframe df (build_keyset comp)).1) := by
  rw [filter_dataframe_spec]
  constructor
  · constructor
    · intro hk
      have := (List.mem_filter.mp hk).2
      simpa using this
    · intro hk
      exact List.mem_filter.mpr ⟨h, by simpa using hk⟩
  · intro hnull
    refine List.mem_filter.mpr ⟨h, ?_⟩
    suffices hs : row_key r ∉ build_keyset comp by simpa using hs
    intro hmem
    have htr := keyTruthy_of_mem_build_keyset hmem
    unfold keyTruthy at htr
    rcases hnull with hd | hd
    · rw [show (row_key r).1 = normalize_date (colVal r "Fecha") from rfl, hd] at htr
      simp at htr
    · rw [show (row_key r).2.1 = normalize_description (colVal r "Descripcion") from rfl, hd] at htr
      rw [Bool.and_eq_true] at htr
      exact absurd htr.2 (by decide)

/-- Witness for C1 at a concrete keyset and frame. -/
theorem claim_C1_witness :
    let comp : List NKey := [(some "2024-03-10", "COMPRA FARMACIA", (0 : ℚ))]
    let r : DRow := [("Fecha", Cell.str "10/03/2024"), ("Descripcion", Cell.str "Compra   Farmacia")]
    (r ∈ (filter_dataframe [r] (build_keyset comp)).1 ↔
      row_key r ∉ build_keyset comp)
    ∧ ((normalize_date (colVal r "Fecha") = none
        ∨ normalize_description (colVal r "Descripcion") = "") →
        r ∈ (filter_dataframe [r] (build_keyset comp)).1) :=
  claim_C1_exact_membership_filter
    [(some "2024-03-10", "COMPRA FARMACIA", (0 : ℚ))]
    [[("Fecha", Cell.str "10/03/2024"), ("Descripcion", Cell.str "Compra   Farmacia")]]
    [("Fecha", Cell.str "10/03/2024"), ("Descripcion", Cell.str "Compra   Farmacia")]
    (by simp)

/-- C2: `filter_dataframe` is idempotent — filtering the kept rows again
with the same keyset keeps them all and removes zero rows. -/
theorem claim_C2_filter_idempotent (df : List DRow) (keys : Finset NKey) :
    filter_dataframe (filter_dataframe df keys).1 keys
      = ((filter_dataframe df keys).1, 0) := by
  rw [filter_dataframe_spec df keys]
  rw [filter_dataframe_spec]
  refine Prod.ext ?_ ?_
  · show List.filter _ _ = _
    rw [List.filter_filter]
    apply List.filter_congr
    intro r _
    cases h : decide (row_key r ∈ keys) <;> simp [h]
  · show (List.filter _ _).length = 0
    rw [List.filter_filter]
    have : ∀ r ∈ df, (decide (row_key r ∈ keys) && !decide (row_key r ∈ keys)) = false := by
      intro r _
      cases h : decide (row_key r ∈ keys) <;> simp [h]
    rw [List.filter_congr this]
    simp

/-- C10: the kept frame is exactly the non-removed original rows — original
values, original column set, no `Fecha_norm`/`Descripcion_norm`/`Importe_norm`
helper columns (they live only on the internal copy) — and the removed count
is the number of input rows minus the number of kept rows. -/
theorem claim_C10_frame_preservation (df : List DRow) (keys : Finset NKey)
    (h : ∀ r ∈ df, hasCol r "Fecha_norm" = false ∧ hasCol r "Descripcion_norm" = false
          ∧ hasCol r "Importe_norm" = false) :
    (filter_dataframe df keys).1 = df.filter (fun r => !decide (row_key r ∈ keys))
    ∧ (filter_dataframe df keys).2 = df.length - (filter_dataframe df keys).1.length
    ∧ (∀ r ∈ (filter_dataframe df keys).1, r ∈ df)
    ∧ (∀ r ∈ (filter_dataframe df keys).1,
        hasCol r "Fecha_norm" = false ∧ hasCol r "Descripcion_norm" = false
          ∧ hasCol r "Importe_norm" = false) := by
  rw [filter_dataframe_spec]
  refine ⟨rfl, ?_, ?_, ?_⟩
  · show (List.filter _ _).length = df.length - (List.filter _ _).length
    have hsum := length_filter_split (fun r => decide (row_key r ∈ keys)) df
    omega
  · intro r hr
    exact (List.mem_filter.mp hr).1
  · intro r hr
    exact h r (List.mem_filter.mp hr).1

/-- Witness for C10 at a concrete frame. -/
theorem claim_C10_witness :
    let df : List DRow := [[("Fecha", Cell.str "10/03/2024"), ("Descripcion", Cell.na)]]
    (filter_dataframe df ∅).1 = df.filter (fun r => !decide (row_key r ∈ (∅ : Finset NKey)))
    ∧ (filter_dataframe df ∅).2 = df.length - (filter_dataframe df ∅).1.length
    ∧ (∀ r ∈ (filter_dataframe df ∅).1, r ∈ df)
    ∧ (∀ r ∈ (filter_dataframe df ∅).1,
        hasCol r "Fecha_norm" = false ∧ hasCol r "Descripcion_norm" = false
          ∧ hasCol r "Importe_norm" = false) :=
  claim_C10_frame_preservation
    [[("Fecha", Cell.str "10/03/2024"), ("Descripcion", Cell.na)]] ∅
    (by intro r hr; simp at hr; subst hr; refine ⟨by decide, by decide, by decide⟩)

/-- First-occurrence deduplication of header cells, modelling the dict
comprehension `{col: str(col).strip().lower() for col in df.columns}` whose
keys are the distinct column labels in first-occurrence order. -/
def dedupFirstAux (seen : List Cell) : List Cell → List Cell
  | [] => []
  | c :: cs =>
    if seen.contains c then dedupFirstAux seen cs
    else c :: dedupFirstAux (c :: seen) cs

/-- Distinct elements in first-occurrence order. -/
def dedupFirst (l : List Cell) : List Cell := dedupFirstAux [] l

/-- `col_map`: each distinct header label paired with its
`str(col).strip().lower()` text (`procesar_estados_itau.py` line 169,
`procesar_movimiento_brou.py` line 164). -/
def col_map (headers : List Cell) : List (Cell × String) :=
  (dedupFirst headers).map (fun h => (h, pyLower (pyStrip (cellPyStr h))))

/-- Description keyword set shared by both extractors. -/
def descKeyword (low : String) : Bool :=
  pyIn "descripcion" low || pyIn "descripción" low || pyIn "detalle" low || pyIn "concepto" low

/-- Itaú date column: first label containing "fecha"
(`procesar_estados_itau.py` line 171). -/
def itau_col_fecha (cm : List (Cell × String)) : Option Cell :=
  (cm.find? (fun p => pyIn "fecha" p.2)).map (fun p => p.1)

/-- Itaú description column: first label containing a description keyword
(line 172). -/
def itau_col_desc (cm : List (Cell × String)) : Option Cell :=
  (cm.find? (fun p => descKeyword p.2)).map (fun p => p.1)

/-- Itaú amount column: first label containing "importe" — and only
"importe"; "monto" is not scanned here (line 176). -/
def itau_col_importe (cm : List (Cell × String)) : Option Cell :=
  (cm.find? (fun p => pyIn "importe" p.2)).map (fun p => p.1)

/-- Itaú debit column: first label containing "debito"/"débito" (line 177). -/
def itau_col_debito (cm : List (Cell × String)) : Option Cell :=
  (cm.find? (fun p => pyIn "debito" p.2 || pyIn "débito" p.2)).map (fun p => p.1)

/-- Itaú credit column: first label containing "credito"/"crédito"
(line 178). -/
def itau_col_credito (cm : List (Cell × String)) : Option Cell :=
  (cm.find? (fun p => pyIn "credito" p.2 || pyIn "crédito" p.2)).map (fun p => p.1)

/-- BROU date column: the scan breaks at the first match
(`procesar_movimiento_brou.py` lines 167–171). -/
def brou_col_fecha (cm : List (Cell × String)) : Option Cell :=
  (cm.find? (fun p => pyIn "fecha" p.2)).map (fun p => p.1)

/-- BROU description column: first match (lines 174–178). -/
def brou_col_desc (cm : List (Cell × String)) : Option Cell :=
  (cm.find? (fun p => descKeyword p.2)).map (fun p => p.1)

/-- BROU amount column: the loop over `col_map` (lines 185–191) has no
`break`, so each matching label overwrites the previous one — the LAST match
wins.  Keywords "importe" or "monto". -/
def brou_col_importe (cm : List (Cell × String)) : Option Cell :=
  cm.foldl (fun acc p => if pyIn "importe" p.2 || pyIn "monto" p.2 then some p.1 else acc) none

/-- BROU debit column: last label containing "debito"/"débito". -/
def brou_col_debito (cm : List (Cell × String)) : Option Cell :=
  cm.foldl (fun acc p => if pyIn "debito" p.2 || pyIn "débito" p.2 then some p.1 else acc) none

/-- BROU credit column: last label containing "credito"/"crédito". -/
def brou_col_credito (cm : List (Cell × String)) : Option Cell :=
  cm.foldl (fun acc p => if pyIn "credito" p.2 || pyIn "crédito" p.2 then some p.1 else acc) none

/-- Position of an (optionally found) label among the headers, first
occurrence — how a label addresses a column of the frame. -/
def colIndex (headers : List Cell) (oc : Option Cell) : Option Nat :=
  oc.bind (fun c => headers.indexOf? c)

/-- A `foldl` that overwrites on every predicate hit returns the last match:
the first match of the reversed list. -/
theorem foldl_last_match (p : Cell × String → Bool) :
    ∀ (cm : List (Cell × String)) (acc : Option Cell),
      cm.foldl (fun a q => if p q then some q.1 else a) acc
        = match cm.reverse.find? p with
          | some q => some q.1
          | none => acc := by
  intro cm
  induction cm with
  | nil => intro acc; rfl
  | cons c cm' ih =>
    intro acc
    show List.foldl _ (if p c then some c.1 else acc) cm' = _
    rw [ih]
    rw [List.reverse_cons, List.find?_append]
    cases h : cm'.reverse.find? p with
    | some q => rfl
    | none =>
      simp only [Option.none_or]
      cases hc : p c <;> simp [List.find?, hc]

/-- C4 counterexample: role inference is not uniformly "first match wins,
one role per column".  (a) In the BROU extractor the Debit scan has no
`break`, so the header row `["Fecha","Concepto","Débito 1","Débito 2"]`
assigns Debit to column 3, not to the first matching column 2; (b) in the
Itaú extractor the header `"Fecha Concepto"` is assigned BOTH the Date and
the Description role (no first-claimed exclusion); (c) the Itaú Amount scan
does not include the keyword "monto". -/
theorem claim_C4_counterexample :
    colIndex [Cell.str "Fecha", Cell.str "Concepto", Cell.str "Débito 1", Cell.str "Débito 2"]
      (brou_col_debito (col_map
        [Cell.str "Fecha", Cell.str "Concepto", Cell.str "Débito 1", Cell.str "Débito 2"])) = some 3
    ∧ colIndex [Cell.str "Fecha", Cell.str "Concepto", Cell.str "Débito 1", Cell.str "Débito 2"]
      (itau_col_debito (col_map
        [Cell.str "Fecha", Cell.str "Concepto", Cell.str "Débito 1", Cell.str "Débito 2"])) = some 2
    ∧ colIndex [Cell.str "Fecha Concepto", Cell.str "Importe"]
      (itau_col_fecha (col_map [Cell.str "Fecha Concepto", Cell.str "Importe"])) = some 0
    ∧ colIndex [Cell.str "Fecha Concepto", Cell.str "Importe"]
      (itau_col_desc (col_map [Cell.str "Fecha Concepto", Cell.str "Importe"])) = some 0
    ∧ itau_col_importe (col_map [Cell.str "Monto"]) = none := by
  decide

/-- C4 (amended): role inference scans the lowercased, stripped header
labels independently per role, with no cross-role exclusion — a column whose
label matches several keyword sets receives all those roles.  Date and
Description take the first matching label in both extractors.  In the Itaú
extractor Amount (keyword set {"importe"} only), Debit and Credit also take
the first matching label; in the BROU extractor (keyword sets
Amount {"importe","monto"}, Debit {"debito","débito"},
Credit {"credito","crédito"}) those three scans have no `break`, so the LAST
matching label wins (the first match of the reversed header list).  The spec
example `["Fecha","Concepto","Débito","Crédito"]` still infers
`{Date:0, Description:1, Debit:2, Credit:3}` and no Amount role. -/
theorem claim_C4_amended_role_inference :
    (∀ cm, brou_col_importe cm
      = (cm.reverse.find? (fun p => pyIn "importe" p.2 || pyIn "monto" p.2)).map (fun p => p.1))
    ∧ (∀ cm, brou_col_debito cm
      = (cm.reverse.find? (fun p => pyIn "debito" p.2 || pyIn "débito" p.2)).map (fun p => p.1))
    ∧ (∀ cm, brou_col_credito cm
      = (cm.reverse.find? (fun p => pyIn "credito" p.2 || pyIn "crédito" p.2)).map (fun p => p.1))
    ∧ (colIndex [Cell.str "Fecha", Cell.str "Concepto", Cell.str "Débito", Cell.str "Crédito"]
        (itau_col_fecha (col_map
          [Cell.str "Fecha", Cell.str "Concepto", Cell.str "Débito", Cell.str "Crédito"])) = some 0
      ∧ colIndex [Cell.str "Fecha", Cell.str "Concepto", Cell.str "Débito", Cell.str "Crédito"]
        (itau_col_desc (col_map
          [Cell.str "Fecha", Cell.str "Concepto", Cell.str "Débito", Cell.str "Crédito"])) = some 1
      ∧ itau_col_importe (col_map
          [Cell.str "Fecha", Cell.str "Concepto", Cell.str "Débito", Cell.str "Crédito"]) = none
      ∧ colIndex [Cell.str "Fecha", Cell.str "Concepto", Cell.str "Débito", Cell.str "Crédito"]
        (itau_col_debito (col_map
          [Cell.str "Fecha", Cell.str "Concepto", Cell.str "Débito", Cell.str "Crédito"])) = some 2
      ∧ colIndex [Cell.str "Fecha", Cell.str "Concepto", Cell.str "Débito", Cell.str "Crédito"]
        (itau_col_credito (col_map
          [Cell.str "Fecha", Cell.str "Concepto", Cell.str "Débito", Cell.str "Crédito"])) = some 3)
    ∧ brou_col_importe (col_map [Cell.str "Monto"]) = some (Cell.str "Monto") := by
  refine ⟨?_, ?_, ?_, by decide, by decide⟩
  · intro cm
    rw [brou_col_importe, foldl_last_match]
    cases cm.reverse.find? (fun p => pyIn "importe" p.2 || pyIn "monto" p.2) <;> rfl
  · intro cm
    rw [brou_col_debito, foldl_last_match]
    cases cm.reverse.find? (fun p => pyIn "debito" p.2 || pyIn "débito" p.2) <;> rfl
  · intro cm
    rw [brou_col_credito, foldl_last_match]
    cases cm.reverse.find? (fun p => pyIn "credito" p.2 || pyIn "crédito" p.2) <;> rfl

/-- Does a cell qualify as a header marker?  `encontrar_fila_header`
(`procesar_estados_itau.py` lines 149–155) tests
`isinstance(val, str) and "fecha" in val.strip().lower()` — only text cells
can qualify. -/
def cell_menciona_fecha (c : Cell) : Bool :=
  match c with
  | .str s => pyIn "fecha" (pyLower (pyStrip s))
  | _ => false

/-- A row qualifies when any of its cells mentions "fecha". -/
def fila_con_fecha (row : List Cell) : Bool :=
  row.any cell_menciona_fecha

/-- `encontrar_fila_header(df_raw)`: index of the first qualifying row,
`None` when no row qualifies. -/
def encontrar_fila_header : List (List Cell) → Option Nat
  | [] => none
  | row :: rest =>
    if fila_con_fecha row then some 0
    else (encontrar_fila_header rest).map (fun i => i + 1)

/-- `DD/MM/YYYY` rendering (`strftime("%d/%m/%Y")`). -/
def fmtDDMMYYYY (y m d : Nat) : String :=
  padZeros 2 d ++ "/" ++ padZeros 2 m ++ "/" ++ padZeros 4 y

/-- `datetime.strptime` against the three formats tried in order by
`parse_fecha_texto`: `%d/%m/%y`, `%d/%m/%Y`, `%Y-%m-%d`; `%d`/`%m` accept one
or two digits, `%y` exactly two (with the 69 pivot), `%Y` exactly four; the
parse validates the calendar. -/
def strptime3 (l : List Char) : Option (Nat × Nat × Nat) :=
  match splitOnChar '/' l with
  | [d, m, y] =>
    if allDigits d && allDigits m && allDigits y && d.length ≤ 2 && m.length ≤ 2 then
      if y.length = 2 then
        if validYMD (expandYY (digitsVal y)) (digitsVal m) (digitsVal d)
        then some (expandYY (digitsVal y), digitsVal m, digitsVal d) else none
      else if y.length = 4 then
        if validYMD (digitsVal y) (digitsVal m) (digitsVal d)
        then some (digitsVal y, digitsVal m, digitsVal d) else none
      else none
    else none
  | _ =>
    match splitOnChar '-' l with
    | [y, m, d] =>
      if (allDigits y && allDigits m && allDigits d)
          && (y.length = 4 && m.length ≤ 2 && d.length ≤ 2)
          && validYMD (digitsVal y) (digitsVal m) (digitsVal d)
      then some (digitsVal y, digitsVal m, digitsVal d)
      else none
    | _ => none

/-- `parse_fecha_texto(fecha_val)` (`procesar_estados_itau.py` lines 44–59,
`procesar_movimiento_brou.py` lines 47–69): structured datetimes format as
`DD/MM/YYYY`; text is stripped, the empty string maps to `""`, a parse in one
of the three accepted formats reformats as `DD/MM/YYYY`, and unparseable text
is returned unchanged. -/
def parse_fecha_texto (v : Cell) : String :=
  match v with
  | .date y m d => fmtDDMMYYYY y m d
  | _ =>
    let s := pyStrip (cellPyStr v)
    if s.isEmpty then ""
    else
      match strptime3 s.toList with
      | some (y, m, d) => fmtDDMMYYYY y m d
      | none => s

/-- Label-based access `row.get(col, default)`: the value under the first
header equal to `col` (pandas rows are label-indexed; frames here are
rectangular, missing positions read as `NaN`). -/
def row_get (headers row : List Cell) (col : Cell) : Cell :=
  match headers.indexOf? col with
  | some i => row.getD i .na
  | none => .na

/-- An output movement record (`Fecha`, `Descripcion`, `Creditos`,
`Debitos`). -/
structure MovOut where
  fecha : String
  descripcion : String
  creditos : ℚ
  debitos : ℚ
deriving DecidableEq, Repr

/-- The two structural extraction failures of
`extraer_movimientos_desde_archivo`: no header row, or unresolvable
date/description/amount columns. -/
inductive ExtErr where
  | headerNotFound : ExtErr
  | columnsNotFound : ExtErr
deriving DecidableEq, Repr

/-- Per-row extraction (`procesar_estados_itau.py` lines 190–224): skip rows
whose date text is empty, skip `SALDO ANTERIOR`/`SALDO FINAL` rows, derive
credit/debit from the single amount column (negative ⇒ credit, positive ⇒
debit) or read the split columns, and drop rows that are all-zero with an
empty description. -/
def itau_fila_a_registro (headers : List Cell) (cf cd : Cell)
    (ci cdeb ccred : Option Cell) (row : List Cell) : Option MovOut :=
  let fecha_txt := parse_fecha_texto (row_get headers row cf)
  if fecha_txt.isEmpty then none
  else
    let desc_val := row_get headers row cd
    let desc_txt := if desc_val = .na then "" else pyStrip (cellPyStr desc_val)
    let du := pyUpper desc_txt
    if pyIn "SALDO ANTERIOR" du || pyIn "SALDO FINAL" du then none
    else
      let cd_pair :=
        match ci with
        | some c =>
          let imp := parse_importe (row_get headers row c)
          (if imp < 0 then -imp else 0, if imp > 0 then imp else 0)
        | none =>
          ( (match ccred with | some c => parse_importe (row_get headers row c) | none => 0)
          , (match cdeb with | some c => parse_importe (row_get headers row c) | none => 0) )
      if (cd_pair.1 = 0 ∧ cd_pair.2 = 0) ∧ desc_txt.isEmpty then none
      else some ⟨fecha_txt, desc_txt, cd_pair.1, cd_pair.2⟩

/-- `extraer_movimientos_desde_archivo(path, moneda)` (`procesar_estados_itau.py`
lines 158–226) on the raw grid: locate the header row (error
`headerNotFound` when none), take the rows below it as data, infer the
columns from the header labels (error `columnsNotFound` when date or
description is missing, or when neither an amount column nor both
debit-and-credit columns exist), and extract the records. -/
def extraer_movimientos_desde_archivo (g : List (List Cell)) : Except ExtErr (List MovOut) :=
  match encontrar_fila_header g with
  | none => .error .headerNotFound
  | some i =>
    match itau_col_fecha (col_map (g.getD i [])), itau_col_desc (col_map (g.getD i [])) with
    | none, _ => .error .columnsNotFound
    | some _, none => .error .columnsNotFound
    | some cf, some cd =>
      if (itau_col_importe (col_map (g.getD i []))).isNone
          && !((itau_col_debito (col_map (g.getD i []))).isSome
               && (itau_col_credito (col_map (g.getD i []))).isSome)
      then .error .columnsNotFound
      else .ok ((g.drop (i + 1)).filterMap
        (itau_fila_a_registro (g.getD i []) cf cd
          (itau_col_importe (col_map (g.getD i [])))
          (itau_col_debito (col_map (g.getD i [])))
          (itau_col_credito (col_map (g.getD i [])))))

/-- `encontrar_fila_header` returns `none` exactly when no cell of the grid
mentions "fecha". -/
theorem encontrar_none_iff (g : List (List Cell)) :
    encontrar_fila_header g = none ↔ ∀ row ∈ g, fila_con_fecha row = false := by
  induction g with
  | nil => simp [encontrar_fila_header]
  | cons row rest ih =>
    unfold encontrar_fila_header
    cases hr : fila_con_fecha row with
    | true =>
      simp only [if_true]
      constructor
      · intro h; cases h
      · intro h
        have := h row (List.mem_cons_self ..)
        rw [hr] at this; cases this
    | false =>
      simp only [Bool.false_eq_true, if_false]
      constructor
      · intro h row' hrow'
        rcases List.mem_cons.mp hrow' with rfl | hm
        · exact hr
        · have : encontrar_fila_header rest = none := by
            cases he : encontrar_fila_header rest with
            | none => rfl
            | some i => rw [he] at h; cases h
          exact ih.mp this row' hm
      · intro h
        have : encontrar_fila_header rest = none :=
          ih.mpr (fun row' hm => h row' (List.mem_cons_of_mem _ hm))
        rw [this]; rfl

/-- When `encontrar_fila_header` returns `some i`, row `i` is the first
qualifying row. -/
theorem encontrar_some_first (g : List (List Cell)) :
    ∀ i, encontrar_fila_header g = some i →
      i < g.length ∧ fila_con_fecha (g.getD i []) = true
      ∧ ∀ j, j < i → fila_con_fecha (g.getD j []) = false := by
  induction g with
  | nil => intro i h; cases h
  | cons row rest ih =>
    intro i h
    unfold encontrar_fila_header at h
    cases hr : fila_con_fecha row with
    | true =>
      rw [hr] at h
      simp only [if_true, Option.some.injEq] at h
      subst h
      refine ⟨by simp, by simpa using hr, ?_⟩
      intro j hj
      omega
    | false =>
      rw [hr] at h
      simp only [Bool.false_eq_true, if_false, Option.map_eq_some'] at h
      obtain ⟨i', hi', rfl⟩ := h
      obtain ⟨hlen, hq, hfirst⟩ := ih i' hi'
      refine ⟨by simpa using hlen, by simpa using hq, ?_⟩
      intro j hj
      cases j with
      | zero => simpa using hr
      | succ j' =>
        have : j' < i' := by omega
        simpa using hfirst j' this

/-- C5: extraction fails with `HeaderNotFound` exactly when no cell anywhere
in the grid contains the substring "fecha" case-insensitively; and when a
qualifying row exists, the header row used is the first (topmost) qualifying
row index. -/
theorem claim_C5_header_not_found (g : List (List Cell)) :
    (extraer_movimientos_desde_archivo g = .error .headerNotFound ↔
      ∀ row ∈ g, ∀ c ∈ row, cell_menciona_fecha c = false)
    ∧ (∀ i, encontrar_fila_header g = some i →
        i < g.length ∧ fila_con_fecha (g.getD i []) = true
        ∧ ∀ j, j < i → fila_con_fecha (g.getD j []) = false) := by
  refine ⟨?_, encontrar_some_first g⟩
  have hext : extraer_movimientos_desde_archivo g = .error .headerNotFound ↔
      encontrar_fila_header g = none := by
    constructor
    · intro h
      cases he : encontrar_fila_header g with
      | none => rfl
      | some i =>
        exfalso
        have hne : extraer_movimientos_desde_archivo g ≠ .error .headerNotFound := by
          unfold extraer_movimientos_desde_archivo
          rw [he]
          dsimp only
          cases itau_col_fecha (col_map (g.getD i [])) with
          | none =>
            dsimp only
            intro hcontra
            exact ExtErr.noConfusion (Except.error.inj hcontra)
          | some cf =>
            cases itau_col_desc (col_map (g.getD i [])) with
            | none =>
              dsimp only
              intro hcontra
              exact ExtErr.noConfusion (Except.error.inj hcontra)
            | some cd =>
              dsimp only
              by_cases hcond : ((itau_col_importe (col_map (g.getD i []))).isNone
                  && !((itau_col_debito (col_map (g.getD i []))).isSome
                       && (itau_col_credito (col_map (g.getD i []))).isSome)) = true
              · rw [if_pos hcond]
                intro hcontra
                exact ExtErr.noConfusion (Except.error.inj hcontra)
              · rw [if_neg hcond]
                intro hcontra
                exact Except.noConfusion hcontra
        exact hne h
    · intro h
      unfold extraer_movimientos_desde_archivo
      rw [h]
  rw [hext, encontrar_none_iff]
  constructor
  · intro h row hrow c hc
    have := h row hrow
    unfold fila_con_fecha at this
    rcases List.any_eq_false.mp this c hc with h'
    simpa using h'
  · intro h row hrow
    unfold fila_con_fecha
    exact List.any_eq_false.mpr (fun c hc => by simp [h row hrow c hc])

/-- Witness for C5 at a concrete grid whose second row holds the marker. -/
theorem claim_C5_witness :
    let g : List (List Cell) := [[Cell.str "BANCO"], [Cell.str "Fecha", Cell.str "Importe"]]
    (extraer_movimientos_desde_archivo g = .error .headerNotFound ↔
      ∀ row ∈ g, ∀ c ∈ row, cell_menciona_fecha c = false)
    ∧ (∀ i, encontrar_fila_header g = some i →
        i < g.length ∧ fila_con_fecha (g.getD i []) = true
        ∧ ∀ j, j < i → fila_con_fecha (g.getD j []) = false) :=
  claim_C5_header_not_found [[Cell.str "BANCO"], [Cell.str "Fecha", Cell.str "Importe"]]

/-- Dollar-token test on a cell's text: `str(val).upper()` contains one of
`"DÓLAR"`, `"DOLAR"`, `"USD"`. -/
def texto_dolar (c : Cell) : Bool :=
  pyIn "DÓLAR" (pyUpper (cellPyStr c)) || pyIn "DOLAR" (pyUpper (cellPyStr c))
    || pyIn "USD" (pyUpper (cellPyStr c))

/-- `detectar_moneda_detalle(path)` (`procesar_movimiento_brou.py` lines
106–129): scan the first `min(15, rows) × min(10, cols)` window, skipping
missing cells; the first dollar token returns `"DOLARES"`, otherwise
`"PESOS"` (the `PESOS`/`U$S` branch only re-assigns the already-default
value). -/
def detectar_moneda_detalle (g : List (List Cell)) : String :=
  if (g.take 15).any (fun row => (row.take 10).any (fun c => !(c == Cell.na) && texto_dolar c))
  then "DOLARES" else "PESOS"

/-- `detectar_moneda(path)` (`procesar_estados_itau.py` lines 135–146):
inspect only the single cell `iloc[4, 5]` (the empty string when out of
bounds); a dollar token there returns `"DOLARES"`, otherwise `"PESOS"`. -/
def detectar_moneda (g : List (List Cell)) : String :=
  if texto_dolar ((g.getD 4 []).getD 5 (Cell.str "")) then "DOLARES" else "PESOS"

/-- C7 counterexample: the grid `[["USD"]]` carries the token "USD" inside
the first 15×10 window, yet the Itaú detector — one of the two detectors the
claim covers — returns the local currency because it looks only at cell
(4, 5); the BROU detector does return dollars. -/
theorem claim_C7_counterexample :
    detectar_moneda_detalle [[Cell.str "USD"]] = "DOLARES"
    ∧ detectar_moneda [[Cell.str "USD"]] = "PESOS" := by
  constructor <;> decide

/-- C7 (amended): the BROU detector returns USD exactly when some
non-missing cell of the first 15 rows × 10 columns carries a dollar token,
and LOCAL ("PESOS") otherwise; the Itaú detector returns USD exactly when
the single cell at row 4, column 5 (0-based, empty when absent) carries a
dollar token, and LOCAL otherwise. -/
theorem claim_C7_amended_currency_detection (g : List (List Cell)) :
    (detectar_moneda_detalle g = "DOLARES" ↔
      ∃ row ∈ g.take 15, ∃ c ∈ row.take 10, (!(c == Cell.na) && texto_dolar c) = true)
    ∧ (detectar_moneda_detalle g = "DOLARES" ∨ detectar_moneda_detalle g = "PESOS")
    ∧ (detectar_moneda g = "DOLARES" ↔
        texto_dolar ((g.getD 4 []).getD 5 (Cell.str "")) = true)
    ∧ (detectar_moneda g = "DOLARES" ∨ detectar_moneda g = "PESOS") := by
  refine ⟨?_, ?_, ?_, ?_⟩
  · unfold detectar_moneda_detalle
    by_cases h : ((g.take 15).any (fun row => (row.take 10).any
        (fun c => !(c == Cell.na) && texto_dolar c))) = true
    · rw [if_pos h]
      simp only [true_iff]
      obtain ⟨row, hrow, hany⟩ := List.any_eq_true.mp h
      obtain ⟨c, hc, hcd⟩ := List.any_eq_true.mp hany
      exact ⟨row, hrow, c, hc, hcd⟩
    · rw [if_neg h]
      constructor
      · intro hcontra
        exact absurd hcontra (by decide)
      · intro ⟨row, hrow, c, hc, hcd⟩
        exact absurd (List.any_eq_true.mpr ⟨row, hrow, List.any_eq_true.mpr ⟨c, hc, hcd⟩⟩) h
  · unfold detectar_moneda_detalle
    by_cases h : ((g.take 15).any (fun row => (row.take 10).any
        (fun c => !(c == Cell.na) && texto_dolar c))) = true
    · rw [if_pos h]; left; rfl
    · rw [if_neg h]; right; rfl
  · unfold detectar_moneda
    by_cases h : texto_dolar ((g.getD 4 []).getD 5 (Cell.str "")) = true
    · rw [if_pos h]
      simp only [true_iff]
      exact h
    · rw [if_neg h]
      constructor
      · intro hcontra
        exact absurd hcontra (by decide)
      · intro hcontra
        exact absurd hcontra h
  · unfold detectar_moneda
    by_cases h : texto_dolar ((g.getD 4 []).getD 5 (Cell.str "")) = true
    · rw [if_pos h]; left; rfl
    · rw [if_neg h]; right; rfl

/-- Outcome of one network fetch of the exchange-rate service: a rate, or
any failure (timeout, non-2xx raised by `raise_for_status`, malformed
payload) — all captured by the bare `except` of the source. -/
inductive FetchResult where
  | ok (rate : ℚ) : FetchResult
  | err : FetchResult
deriving DecidableEq, Repr

/-- `get_usd_rate_uyu` body of `procesar_movimiento_brou.py` (lines 76–99):
the fetched rate, or `0.0` on any fetch error — no manual prompt exists in
this module. -/
def brou_get_usd_rate_uyu (fetch : FetchResult) : ℚ :=
  match fetch with
  | .ok r => r
  | .err => 0

/-- `get_usd_rate_uyu` body of `generar_excels.py` (lines 61–78) and
`procesar_estados_itau.py` (lines 114–128): the fetched rate, or `None` on
any fetch error (to force the manual fallback in `main`). -/
def excels_get_usd_rate_uyu (fetch : FetchResult) : Option ℚ :=
  match fetch with
  | .ok r => some r
  | .err => none

/-- `solicitar_cotizacion_manual()` (`generar_excels.py` lines 81–94,
`procesar_estados_itau.py` lines 94–107) driven by the scripted sequence of
console entries: strip the entry; empty cancels (`None`); otherwise replace
every `,` by `.` and parse as float, looping on parse failure.  An exhausted
script models the prompt still blocking and never happens in the claims. -/
def solicitar_cotizacion_manual : List String → Option ℚ
  | [] => none
  | v :: rest =>
    if (pyStrip v).isEmpty then none
    else
      match pyFloat (String.mk ((pyStrip v).toList.map (fun c => if c == ',' then '.' else c))) with
      | some q => some q
      | none => solicitar_cotizacion_manual rest

/-- Dollar-batch rate resolution of `main` (`generar_excels.py` lines
146–163, mirrored by `procesar_estados_itau.py` lines 274–288): use the
fetched rate when the fetch succeeds; on fetch failure invoke the manual
prompt (second component `true`), and when the prompt is cancelled fall back
to `0.0`.  No path raises. -/
def main_resolve_cotizacion (fetch : FetchResult) (inputs : List String) : ℚ × Bool :=
  match excels_get_usd_rate_uyu fetch with
  | some r => (r, false)
  | none => ((solicitar_cotizacion_manual inputs).getD 0, true)

/-- Rate resolution of `procesar_movimiento_brou.py` `main` (line 274): each
record's rate comes straight from `get_usd_rate_uyu`; the module has no
`input()` call, so the prompt flag is constantly `false`. -/
def brou_resolve_cotizacion (fetch : FetchResult) : ℚ × Bool :=
  (brou_get_usd_rate_uyu fetch, false)

/-- C8 counterexample: in the BROU flow (one of the two code paths the claim
cites) a rate-fetch error resolves directly to `0.0` WITHOUT invoking any
manual fallback prompt — the prompt flag is `false` on the error outcome. -/
theorem claim_C8_counterexample :
    brou_resolve_cotizacion .err = (0, false) := rfl

/-- C8 (amended): in the CSV/Itaú flow every rate-fetch error invokes the
manual fallback prompt, an empty manual entry yields the defaulted rate
`0.0`, the entry `"41,2"` yields the manual rate `41.2`, and a successful
fetch bypasses the prompt; in the BROU flow a fetch error yields `0.0`
directly with no prompt.  No fetch failure terminates the run (every outcome
resolves to a rate). -/
theorem claim_C8_amended_rate_fallback (inputs : List String) (r : ℚ) :
    (main_resolve_cotizacion .err inputs).2 = true
    ∧ main_resolve_cotizacion .err ("" :: inputs) = (0, true)
    ∧ main_resolve_cotizacion .err ["41,2"] = (412 / 10, true)
    ∧ main_resolve_cotizacion (.ok r) inputs = (r, false)
    ∧ brou_resolve_cotizacion .err = (0, false)
    ∧ brou_resolve_cotizacion (.ok r) = (r, false) := by
  refine ⟨rfl, ?_, ?_, rfl, rfl, rfl⟩
  · show ((solicitar_cotizacion_manual ("" :: inputs)).getD 0, true) = (0, true)
    have h : solicitar_cotizacion_manual ("" :: inputs) = none := by
      unfold solicitar_cotizacion_manual
      rw [if_pos (by decide)]
    rw [h]
    rfl
  · show ((solicitar_cotizacion_manual ["41,2"]).getD 0, true) = (412 / 10, true)
    have hrepr : pyFloatRepr (String.mk ((pyStrip "41,2").toList.map
        (fun c => if c == ',' then '.' else c))) = some (412, -1) := by decide
    have h : solicitar_cotizacion_manual ["41,2"] = some ((412 : ℚ) * (10 : ℚ) ^ (-1 : ℤ)) := by
      unfold solicitar_cotizacion_manual
      rw [if_neg (by decide)]
      rw [pyFloat, hrepr]
      rfl
    rw [h]
    norm_num

/-- The memoization cache of `functools.lru_cache(maxsize=None)` keyed by the
resolution key `fecha_texto`; values are the function's returned results —
including the `None` returned on fetch failure, which is cached too. -/
abbrev RateCache := List (String × Option ℚ)

/-- `get_usd_rate_uyu(fecha_texto)` as wrapped by `@lru_cache(maxsize=None)`
(`generar_excels.py` lines 61–78, `procesar_estados_itau.py` lines 114–128):
on a cache hit return the memoized result without fetching (third component
`false`); on a miss invoke the fetch, store the result under the key, and
return it (third component `true`). -/
def get_usd_rate_uyu_cached (cache : RateCache) (fetch : FetchResult) (k : String) :
    Option ℚ × RateCache × Bool :=
  match cache.find? (fun p => p.1 == k) with
  | some p => (p.2, cache, false)
  | none => (excels_get_usd_rate_uyu fetch, (k, excels_get_usd_rate_uyu fetch) :: cache, true)

/-- C9: rate resolution is memoized per resolution key for the process
lifetime — once a call for key `k` has returned, a second call for `k`
returns the memoized result without invoking the fetch capability again
(whatever that second fetch would have produced). -/
theorem claim_C9_rate_memoized (cache : RateCache) (fetch1 fetch2 : FetchResult) (k : String) :
    get_usd_rate_uyu_cached
        (get_usd_rate_uyu_cached cache fetch1 k).2.1 fetch2 k
      = ((get_usd_rate_uyu_cached cache fetch1 k).1,
         (get_usd_rate_uyu_cached cache fetch1 k).2.1, false) := by
  unfold get_usd_rate_uyu_cached
  cases hfind : cache.find? (fun p => p.1 == k) with
  | some p =>
    dsimp only
    rw [hfind]
  | none =>
    dsimp only
    have : ((k, excels_get_usd_rate_uyu fetch1) :: cache).find? (fun p => p.1 == k)
        = some (k, excels_get_usd_rate_uyu fetch1) := by
      unfold List.find?
      rw [show ((k, excels_get_usd_rate_uyu fetch1).1 == k) = true by simp]
    rw [this]
